import Mathlib

/-!
Shallow embedding of `src/file_manager.py` (a watchdog-based file organizer)
and verification of the frozen claims about it.

Modelling decisions:
* Paths are lists of characters (`Path := List Char`); string literals are
  converted with `str`.
* Python's `str.lower` is modelled by mapping `Char.toLower`.
* The filesystem is an explicit state `FS`: a list of file paths, a list of
  directory paths, an association list of permission modes, and three lists of
  paths on which the corresponding mutating system call fails (modelling
  permission-denied errors raised by the OS).
* Python exceptions become `Except PyErr`; the `try/except` in
  `FileHandler.on_created` becomes an explicit catch producing an
  `Outcome.errorCaught` value.
* The 1-second debounce sleep is modelled by letting the filesystem state
  passed to the handler be the state observed *after* the delay; the
  existence re-check of line 98 then runs against that state.
* `str(counter)` (decimal rendering) is modelled by `natToChars`, a
  fuel-structural decimal printer proved injective below.
* The unbounded `while True` of `get_unique_filename` is modelled with fuel
  `entryCount fs + 1`; the theorems below show that this fuel always suffices
  (finitely many filesystem entries, pairwise distinct probe names), so the
  fuelled loop computes exactly the limit of the Python loop.
-/

namespace FileManager

/-- Paths (and all Python strings) are modelled as lists of characters. -/
abbrev Path := List Char

/-- Characters of a Lean string literal, for writing concrete paths. -/
def str (s : String) : Path := s.data

/-- Path separator, as in POSIX `os.path`. -/
def SEP : Char := '/'

/-- Extension separator, as in `os.path.splitext`. -/
def EXTSEP : Char := '.'

/-- `EXTENSION_MAPPINGS` from the source, in its fixed enumeration order
(Python dicts preserve insertion order). -/
def EXTENSION_MAPPINGS : List (Path × List Path) :=
  [ (str "PDF", [str ".pdf"]),
    (str "Images", [str ".jpg", str ".jpeg", str ".png", str ".gif",
                    str ".bmp", str ".tiff", str ".webp"]),
    (str "Video", [str ".mp4", str ".mov", str ".avi", str ".mkv",
                   str ".wmv", str ".flv", str ".webm", str ".m4v"]),
    (str "Audio", [str ".mp3", str ".wav", str ".flac", str ".aac",
                   str ".ogg", str ".m4a", str ".wma"]),
    (str "Documents", [str ".doc", str ".docx", str ".xls", str ".xlsx",
                       str ".ppt", str ".pptx", str ".txt", str ".rtf",
                       str ".csv", str ".odt"]),
    (str "Zip", [str ".zip", str ".rar", str ".7z", str ".tar",
                 str ".gz", str ".bz2"]),
    (str "Ebook", [str ".epub", str ".mobi", str ".azw", str ".azw3",
                   str ".pdf"]),
    (str "Installers", [str ".exe", str ".dmg", str ".pkg", str ".app",
                        str ".msi"]) ]

/-- Python `str.lower`, modelled by per-character lowering. -/
def lowerStr (p : Path) : Path := p.map Char.toLower

/-- The `for category, extensions in EXTENSION_MAPPINGS.items()` loop of
`get_category`, over an explicit table. -/
def lookupCategory (table : List (Path × List Path)) (ext : Path) : Path :=
  match table with
  | [] => str "Others"
  | (category, extensions) :: rest =>
    if ext ∈ extensions then category else lookupCategory rest ext

/-- `get_category` from the source (lines 51-57): lowercase the extension,
then scan the table in order; fall back to `"Others"`. -/
def get_category (file_extension : Path) : Path :=
  lookupCategory EXTENSION_MAPPINGS (lowerStr file_extension)

/-- Modelled from the spec's words (refinement comparison for C1): lowercase
the input, return the category of the *first* table entry, in the fixed
enumeration order, whose extension list contains it; `"Others"` otherwise. -/
def category_of_spec (file_extension : Path) : Path :=
  match EXTENSION_MAPPINGS.find? (fun entry => decide (lowerStr file_extension ∈ entry.2)) with
  | some entry => entry.1
  | none => str "Others"

/-- The character of a decimal digit. -/
def digitChar (d : Nat) : Char := Char.ofNat (48 + d)

/-- Fuel-structural loop extracting decimal digits most-significant first. -/
def natToCharsAux : Nat → Nat → Path → Path
  | 0, _, acc => acc
  | fuel + 1, n, acc =>
    let acc1 := digitChar (n % 10) :: acc
    if n < 10 then acc1 else natToCharsAux fuel (n / 10) acc1

/-- Decimal rendering of a natural number, the model of Python `str(n)`. -/
def natToChars (n : Nat) : Path := natToCharsAux (n + 1) n []

/-- Numeric value of a digit character. -/
def charToDigit (c : Char) : Nat := c.toNat - 48

/-- Reading a digit string back, left to right. -/
def digitsVal (l : Path) : Nat := l.foldl (fun a c => a * 10 + charToDigit c) 0

/-- `os.path.basename`: everything after the last separator. -/
def basename (p : Path) : Path :=
  (p.reverse.takeWhile (fun c => c != SEP)).reverse

/-- The complement of `basename`: the prefix of the path up to and including
the last separator (empty when the path has no separator). -/
def dirPart (p : Path) : Path :=
  (p.reverse.dropWhile (fun c => c != SEP)).reverse

/-- `os.path.splitext` restricted to a separator-free name: split at the last
extension separator, provided some character of the would-be stem is not
itself a separator (so names consisting of leading dots only, such as
`".hidden"` or `"..x"`, have no extension — exactly CPython's
`genericpath._splitext` scan). -/
def splitextName (name : Path) : Path × Path :=
  match name.reverse.dropWhile (fun c => c != EXTSEP) with
  | [] => (name, [])
  | _ :: rstem =>
    if rstem.reverse.any (fun c => c != EXTSEP) then
      (rstem.reverse, EXTSEP :: (name.reverse.takeWhile (fun c => c != EXTSEP)).reverse)
    else (name, [])

/-- `os.path.splitext`: the extension scan runs over the basename only
(a dot before the last separator never yields an extension). -/
def splitext (p : Path) : Path × Path :=
  (dirPart p ++ (splitextName (basename p)).1, (splitextName (basename p)).2)

/-- `os.path.join` for the shapes this program uses: a directory path that is
non-empty and does not end in a separator, joined with a relative name. -/
def joinPath (a b : Path) : Path := a ++ SEP :: b

/-- Python exceptions that the modelled system calls raise. -/
inductive PyErr where
  | permissionDenied (p : Path)
  | fileNotFound (p : Path)
deriving DecidableEq

/-- Filesystem state: regular files, directories, permission modes, and the
sets of paths on which each mutating call is denied by the OS. -/
structure FS where
  files : List Path
  dirs : List Path
  modes : List (Path × Nat)
  mkdirDenied : List Path
  moveDenied : List Path
  chmodDenied : List Path
deriving DecidableEq

/-- `os.path.exists`: true for files and directories alike. -/
def os_path_exists (fs : FS) (p : Path) : Bool :=
  decide (p ∈ fs.files) || decide (p ∈ fs.dirs)

/-- Update an association list of permission modes. -/
def setMode (modes : List (Path × Nat)) (p : Path) (m : Nat) : List (Path × Nat) :=
  (p, m) :: modes.filter (fun entry => !(decide (entry.1 = p)))

/-- Look up a permission mode. -/
def getMode (modes : List (Path × Nat)) (p : Path) : Option Nat :=
  (modes.find? (fun entry => decide (entry.1 = p))).map (fun entry => entry.2)

/-- `os.makedirs(d, exist_ok=True)`, with parent creation abstracted to the
target directory itself (no claim depends on intermediate parents). Fails
when the OS denies the creation. -/
def os_makedirs (fs : FS) (d : Path) : Except PyErr FS :=
  if d ∈ fs.mkdirDenied then .error (.permissionDenied d)
  else .ok { fs with dirs := d :: fs.dirs }

/-- `os.chmod`. Fails when denied by the OS or when the path does not exist. -/
def os_chmod (fs : FS) (p : Path) (m : Nat) : Except PyErr FS :=
  if p ∈ fs.chmodDenied then .error (.permissionDenied p)
  else if os_path_exists fs p = false then .error (.fileNotFound p)
  else .ok { fs with modes := setMode fs.modes p m }

/-- `ensure_directory_exists` from the source (lines 60-67): if nothing
exists at the path, `makedirs` then `chmod 0o755`; otherwise do nothing.
The `try/except Exception: raise` re-raises unchanged, so errors simply
propagate. -/
def ensure_directory_exists (fs : FS) (directory : Path) : Except PyErr FS :=
  if os_path_exists fs directory = false then
    match os_makedirs fs directory with
    | .error e => .error e
    | .ok fs1 =>
      match os_chmod fs1 directory 0o755 with
      | .error e => .error e
      | .ok fs2 => .ok fs2
  else .ok fs

/-- `shutil.move` for the pipeline's use (destination freshly verified not to
exist): remove the source file, add the destination file carrying the
source's mode. Fails when the source is not an existing file or the OS
denies the write at the destination. -/
def shutil_move (fs : FS) (src dst : Path) : Except PyErr FS :=
  if decide (src ∈ fs.files) = false then .error (.fileNotFound src)
  else if dst ∈ fs.moveDenied then .error (.permissionDenied dst)
  else
    .ok { fs with
      files := dst :: fs.files.filter (fun q => !(decide (q = src))),
      modes := setMode (fs.modes.filter (fun entry => !(decide (entry.1 = src)))) dst
        ((getMode fs.modes src).getD 0o600) }

/-- The probe path `f"{base_path}_{counter}{extension}"` of
`get_unique_filename`. -/
def probeName (base ext : Path) (counter : Nat) : Path :=
  base ++ '_' :: natToChars counter ++ ext

/-- The `while True` loop of `get_unique_filename`, with explicit fuel. -/
def findCounterLoop (fs : FS) (base ext : Path) : Nat → Nat → Option Path
  | 0, _ => none
  | fuel + 1, counter =>
    let new_path := probeName base ext counter
    if os_path_exists fs new_path then findCounterLoop fs base ext fuel (counter + 1)
    else some new_path

/-- Total number of filesystem entries; any strictly larger supply of
pairwise-distinct candidate names must contain a free one. -/
def entryCount (fs : FS) : Nat := fs.files.length + fs.dirs.length

/-- `get_unique_filename` from the source (lines 70-82). The fuel
`entryCount fs + 1` is proved sufficient below (`findCounterLoop_isSome`),
so the `getD` default is never taken and this function computes exactly what
the unbounded Python loop returns. -/
def get_unique_filename (fs : FS) (destination_path : Path) : Path :=
  if os_path_exists fs destination_path = false then destination_path
  else
    match splitext destination_path with
    | (base_path, extension) =>
      (findCounterLoop fs base_path extension (entryCount fs + 1) 1).getD destination_path

/-- A watchdog creation event: the source path and the is-directory flag. -/
structure Event where
  src_path : Path
  is_directory : Bool
deriving DecidableEq

/-- Per-event terminal outcomes, mirroring the log lines of
`FileHandler.on_created`. -/
inductive Outcome where
  | ignoredDirectory
  | vanished
  | skippedHidden
  | skippedNoExtension
  | moved (dest : Path)
  | errorCaught (e : PyErr)
deriving DecidableEq

/-- The body of the `try` block of `FileHandler.on_created` (lines 91-133),
entered once the debounce delay has elapsed: `fs` is the filesystem state
observed after the delay. An `error` result carries the raised exception and
the state at the moment it was raised (side effects already performed are
kept). -/
def tryProcess (root : Path) (fs : FS) (src_path : Path) : Except (PyErr × FS) (Outcome × FS) :=
  if os_path_exists fs src_path = false then .ok (.vanished, fs)
  else
    let filename := basename src_path
    if filename.head? = some EXTSEP then .ok (.skippedHidden, fs)
    else
      let extension := (splitext filename).2
      if extension = [] then .ok (.skippedNoExtension, fs)
      else
        let category := get_category extension
        let category_path := joinPath root category
        match ensure_directory_exists fs category_path with
        | .error e => .error (e, fs)
        | .ok fs1 =>
          let dest_path := get_unique_filename fs1 (joinPath category_path filename)
          match shutil_move fs1 src_path dest_path with
          | .error e => .error (e, fs1)
          | .ok fs2 =>
            match os_chmod fs2 dest_path 0o644 with
            | .error e => .error (e, fs2)
            | .ok fs3 => .ok (.moved dest_path, fs3)

/-- `FileHandler.on_created` (lines 86-139): directory events are ignored
before the `try`; any exception raised inside the `try` block is caught by
the `except Exception` handler, which logs the diagnostic (captured here in
the `errorCaught` payload) and returns normally. -/
def on_created (root : Path) (fs : FS) (ev : Event) : Outcome × FS :=
  if ev.is_directory then (.ignoredDirectory, fs)
  else
    match tryProcess root fs ev.src_path with
    | .ok r => r
    | .error (e, fs1) => (.errorCaught e, fs1)

/-- Sequential processing of a stream of creation events by the handler. -/
def runEvents (root : Path) (fs : FS) : List Event → List Outcome × FS
  | [] => ([], fs)
  | ev :: rest =>
    match on_created root fs ev with
    | (o, fs1) =>
      match runEvents root fs1 rest with
      | (os, fs2) => (o :: os, fs2)

/-- `list(EXTENSION_MAPPINGS.keys()) + ["Others"]` from `main`
(line 146). -/
def categories : List Path := EXTENSION_MAPPINGS.map Prod.fst ++ [str "Others"]

/-- The bootstrap loop of `main` (lines 146-153): provision every category
directory in order; the first failure calls `sys.exit(1)`, modelled as an
error carrying the exit code and the state reached. -/
def bootstrapLoop (root : Path) (fs : FS) : List Path → Except (Nat × FS) FS
  | [] => .ok fs
  | c :: rest =>
    match ensure_directory_exists fs (joinPath root c) with
    | .ok fs1 => bootstrapLoop root fs1 rest
    | .error _ => .error (1, fs)

/-- The bootstrap phase of `main`, before the observer is scheduled. -/
def bootstrap (root : Path) (fs : FS) : Except (Nat × FS) FS :=
  bootstrapLoop root fs categories

/-- Filesystem well-formedness: no path is simultaneously a file and a
directory. -/
abbrev FSDisjoint (fs : FS) : Prop := ∀ p : Path, p ∈ fs.files → p ∉ fs.dirs

/-! ## Concrete fixtures used by witnesses and counterexamples -/

/-- The watch root used in concrete scenarios. -/
def rootW : Path := str "/watch"

/-- An empty filesystem. -/
def fsEmpty : FS :=
  { files := [], dirs := [], modes := [],
    mkdirDenied := [], moveDenied := [], chmodDenied := [] }

/-- A filesystem in which a regular *file* occupies the path of the PDF
category directory. -/
def fsFileAtPDF : FS :=
  { files := [str "/watch/PDF"], dirs := [], modes := [],
    mkdirDenied := [], moveDenied := [], chmodDenied := [] }

/-- A filesystem in which creating the PDF category directory is denied. -/
def fsDeniedPDF : FS :=
  { files := [], dirs := [], modes := [],
    mkdirDenied := [str "/watch/PDF"], moveDenied := [], chmodDenied := [] }

/-- The category directories under the watch root, most recently created
first — the directory list bootstrap leaves behind on an empty filesystem. -/
def bootDirs : List Path := (categories.map (fun c => joinPath rootW c)).reverse

/-- The filesystem state after a successful bootstrap on `fsEmpty`. -/
def fsBoot : FS :=
  { files := [], dirs := bootDirs,
    modes := bootDirs.map (fun d => (d, 0o755)),
    mkdirDenied := [], moveDenied := [], chmodDenied := [] }

/-- A filesystem with a destination and its first suffix probe occupied. -/
def fsCollide : FS :=
  { files := [str "/watch/PDF/a.pdf", str "/watch/PDF/a_1.pdf"],
    dirs := [str "/watch", str "/watch/PDF"], modes := [],
    mkdirDenied := [], moveDenied := [], chmodDenied := [] }

/-- A watch root containing one freshly created PDF file. -/
def fsMove : FS :=
  { files := [joinPath rootW (str "report.pdf")], dirs := [rootW], modes := [],
    mkdirDenied := [], moveDenied := [], chmodDenied := [] }

/-- The creation event for that PDF file. -/
def evMove : Event := { src_path := joinPath rootW (str "report.pdf"), is_directory := false }

/-- The filesystem state after `evMove` has been fully processed. -/
def fsMoved : FS :=
  { files := [str "/watch/PDF/report.pdf"],
    dirs := [str "/watch/PDF", rootW],
    modes := [(str "/watch/PDF/report.pdf", 0o644), (str "/watch/PDF", 0o755)],
    mkdirDenied := [], moveDenied := [], chmodDenied := [] }

/-- A filesystem where provisioning the PDF category directory is denied
while a PDF file awaits processing. -/
def fsErr : FS :=
  { files := [joinPath rootW (str "doc.pdf")], dirs := [rootW], modes := [],
    mkdirDenied := [joinPath rootW (str "PDF")], moveDenied := [], chmodDenied := [] }

/-- The creation event for that PDF file. -/
def evErr : Event := { src_path := joinPath rootW (str "doc.pdf"), is_directory := false }

/-- A watch root containing a file named `notes.` (bare trailing dot). -/
def fsNotes : FS :=
  { files := [joinPath rootW (str "notes.")], dirs := [rootW], modes := [],
    mkdirDenied := [], moveDenied := [], chmodDenied := [] }

/-- The creation event for `notes.`. -/
def evNotes : Event := { src_path := joinPath rootW (str "notes."), is_directory := false }

/-- A directory-creation event. -/
def evDir : Event := { src_path := joinPath rootW (str "sub"), is_directory := true }

/-- A creation event for a hidden file that exists under the root. -/
def evHidden : Event := { src_path := joinPath rootW (str ".secret.pdf"), is_directory := false }

/-- A creation event for an extensionless file that exists under the root. -/
def evNoExt : Event := { src_path := joinPath rootW (str "README"), is_directory := false }

/-- A creation event whose source does not exist (vanished during debounce). -/
def evGone : Event := { src_path := joinPath rootW (str "gone.pdf"), is_directory := false }

/-- A filesystem containing the hidden and extensionless files above. -/
def fsSkips : FS :=
  { files := [joinPath rootW (str ".secret.pdf"), joinPath rootW (str "README")],
    dirs := [rootW], modes := [],
    mkdirDenied := [], moveDenied := [], chmodDenied := [] }

/-! ## Theorems -/

theorem natToCharsAux_append (fuel : Nat) :
    ∀ n acc, natToCharsAux fuel n acc = natToCharsAux fuel n [] ++ acc := by
  induction fuel with
  | zero => intro n acc; simp [natToCharsAux]
  | succ f ih =>
    intro n acc
    simp only [natToCharsAux]
    by_cases h : n < 10
    · simp [h]
    · simp only [h, if_false]
      rw [ih (n / 10) (digitChar (n % 10) :: acc), ih (n / 10) [digitChar (n % 10)]]
      simp

theorem natToCharsAux_fuel (n : Nat) :
    ∀ fuel fuel2, n < fuel → n < fuel2 →
      natToCharsAux fuel n [] = natToCharsAux fuel2 n [] := by
  induction n using Nat.strong_induction_on with
  | _ n ih =>
    intro fuel fuel2 hn hn2
    match fuel, hn, fuel2, hn2 with
    | f + 1, hn, f2 + 1, hn2 =>
      simp only [natToCharsAux]
      by_cases h : n < 10
      · simp [h]
      · simp only [h, if_false]
        rw [natToCharsAux_append f, natToCharsAux_append f2]
        have hdiv : n / 10 < n := Nat.div_lt_self (by omega) (by omega)
        rw [ih (n / 10) hdiv f f2 (by omega) (by omega)]

theorem digitChar_toNat (d : Nat) (h : d < 10) : (digitChar d).toNat = 48 + d := by
  interval_cases d <;> decide

theorem charToDigit_digitChar (d : Nat) (h : d < 10) : charToDigit (digitChar d) = d := by
  interval_cases d <;> decide

theorem digitsVal_append (l1 l2 : Path) :
    digitsVal (l1 ++ l2) = l2.foldl (fun a c => a * 10 + charToDigit c) (digitsVal l1) := by
  simp [digitsVal, List.foldl_append]

theorem digitsVal_natToChars (n : Nat) : digitsVal (natToChars n) = n := by
  induction n using Nat.strong_induction_on with
  | _ n ih =>
    unfold natToChars
    simp only [natToCharsAux]
    by_cases h : n < 10
    · simp only [h, if_true]
      simp [digitsVal]
      rw [charToDigit_digitChar (n % 10) (by omega)]
      omega
    · simp only [h, if_false]
      rw [natToCharsAux_append n]
      have hdiv : n / 10 < n := Nat.div_lt_self (by omega) (by omega)
      rw [natToCharsAux_fuel (n / 10) n (n / 10 + 1) (by omega) (by omega)]
      rw [digitsVal_append]
      have hrec : digitsVal (natToChars (n / 10)) = n / 10 := ih (n / 10) hdiv
      unfold natToChars at hrec
      rw [hrec]
      simp [charToDigit_digitChar (n % 10) (by omega)]
      omega

theorem natToChars_injective : Function.Injective natToChars := by
  intro a b h
  have ha := digitsVal_natToChars a
  have hb := digitsVal_natToChars b
  rw [h] at ha
  omega

theorem natToChars_digits (n : Nat) :
    ∀ c ∈ natToChars n, ∃ d, d < 10 ∧ c = digitChar d := by
  unfold natToChars
  generalize hfuel : n + 1 = fuel
  have hn : n < fuel := by omega
  clear hfuel
  induction fuel generalizing n with
  | zero => omega
  | succ f ih =>
    intro c hc
    simp only [natToCharsAux] at hc
    by_cases h : n < 10
    · simp [h] at hc
      exact ⟨n % 10, by omega, hc⟩
    · simp only [h, if_false] at hc
      rw [natToCharsAux_append f] at hc
      rcases List.mem_append.mp hc with hc1 | hc1
      · have hdiv : n / 10 < n := Nat.div_lt_self (by omega) (by omega)
        exact ih (n / 10) (by omega) c hc1
      · simp at hc1
        exact ⟨n % 10, by omega, hc1⟩

theorem digitChar_ne_EXTSEP (d : Nat) (h : d < 10) : digitChar d ≠ EXTSEP := by
  interval_cases d <;> decide

theorem digitChar_ne_SEP (d : Nat) (h : d < 10) : digitChar d ≠ SEP := by
  interval_cases d <;> decide

theorem natToChars_no_EXTSEP (n : Nat) : EXTSEP ∉ natToChars n := by
  intro hmem
  obtain ⟨d, hd, hc⟩ := natToChars_digits n EXTSEP hmem
  exact digitChar_ne_EXTSEP d hd hc.symm

theorem natToChars_no_SEP (n : Nat) : SEP ∉ natToChars n := by
  intro hmem
  obtain ⟨d, hd, hc⟩ := natToChars_digits n SEP hmem
  exact digitChar_ne_SEP d hd hc.symm

theorem takeWhile_all {p : Char → Bool} {l : Path} (h : ∀ c ∈ l, p c = true) :
    l.takeWhile p = l := by
  induction l with
  | nil => rfl
  | cons c cs ih =>
    rw [List.takeWhile_cons, h c (by simp)]
    simp [ih (fun x hx => h x (by simp [hx]))]

theorem dropWhile_all {p : Char → Bool} {l : Path} (h : ∀ c ∈ l, p c = true) :
    l.dropWhile p = [] := by
  induction l with
  | nil => rfl
  | cons c cs ih =>
    rw [List.dropWhile_cons, h c (by simp)]
    simp [ih (fun x hx => h x (by simp [hx]))]

theorem takeWhile_append_all {p : Char → Bool} {l1 : Path} (l2 : Path)
    (h : ∀ c ∈ l1, p c = true) :
    (l1 ++ l2).takeWhile p = l1 ++ l2.takeWhile p := by
  induction l1 with
  | nil => rfl
  | cons c cs ih =>
    rw [List.cons_append, List.takeWhile_cons, h c (by simp)]
    simp [ih (fun x hx => h x (by simp [hx]))]

theorem dropWhile_append_all {p : Char → Bool} {l1 : Path} (l2 : Path)
    (h : ∀ c ∈ l1, p c = true) :
    (l1 ++ l2).dropWhile p = l2.dropWhile p := by
  induction l1 with
  | nil => rfl
  | cons c cs ih =>
    rw [List.cons_append, List.dropWhile_cons, h c (by simp)]
    simp [ih (fun x hx => h x (by simp [hx]))]

theorem mem_takeWhile_pred (p : Char → Bool) (l : Path) {c : Char}
    (h : c ∈ l.takeWhile p) : p c = true := by
  induction l with
  | nil => simp [List.takeWhile] at h
  | cons a as ih =>
    rw [List.takeWhile_cons] at h
    by_cases hp : p a = true
    · simp [hp] at h
      rcases h with h | h
      · rw [h]; exact hp
      · exact ih h
    · simp [hp] at h

theorem dropWhile_head_false (p : Char → Bool) (l rest : Path) (c : Char)
    (h : l.dropWhile p = c :: rest) : p c = false := by
  induction l with
  | nil => simp [List.dropWhile] at h
  | cons a as ih =>
    rw [List.dropWhile_cons] at h
    by_cases hp : p a = true
    · simp [hp] at h
      exact ih h
    · simp [hp] at h
      rw [← h.1]
      simp [hp]

theorem dropWhile_idem (p : Char → Bool) (l : Path) :
    (l.dropWhile p).dropWhile p = l.dropWhile p := by
  match hdw : l.dropWhile p with
  | [] => rfl
  | c :: rest =>
    rw [List.dropWhile_cons, dropWhile_head_false p l rest c hdw]
    simp

theorem dirPart_append_basename (p : Path) : dirPart p ++ basename p = p := by
  unfold dirPart basename
  rw [← List.reverse_append, List.takeWhile_append_dropWhile, List.reverse_reverse]

theorem sep_not_mem_basename (p : Path) : SEP ∉ basename p := by
  intro h
  unfold basename at h
  rw [List.mem_reverse] at h
  have := mem_takeWhile_pred _ _ h
  simp at this

theorem basename_of_no_sep {p : Path} (h : SEP ∉ p) : basename p = p := by
  unfold basename
  rw [takeWhile_all, List.reverse_reverse]
  intro c hc
  rw [List.mem_reverse] at hc
  simp
  intro heq
  exact h (heq ▸ hc)

theorem dirPart_of_no_sep {p : Path} (h : SEP ∉ p) : dirPart p = [] := by
  unfold dirPart
  rw [dropWhile_all]
  · rfl
  · intro c hc
    rw [List.mem_reverse] at hc
    simp
    intro heq
    exact h (heq ▸ hc)

theorem dirPart_append_noSep (p t : Path) (h : SEP ∉ t) :
    dirPart (p ++ t) = dirPart p := by
  unfold dirPart
  rw [List.reverse_append, dropWhile_append_all]
  intro c hc
  rw [List.mem_reverse] at hc
  simp
  intro heq
  exact h (heq ▸ hc)

theorem basename_append_noSep (p t : Path) (h : SEP ∉ t) :
    basename (p ++ t) = basename p ++ t := by
  unfold basename
  rw [List.reverse_append, takeWhile_append_all, List.reverse_append,
    List.reverse_reverse]
  intro c hc
  rw [List.mem_reverse] at hc
  simp
  intro heq
  exact h (heq ▸ hc)

theorem basename_dirPart (p : Path) : basename (dirPart p) = [] := by
  unfold basename dirPart
  rw [List.reverse_reverse]
  match hdw : p.reverse.dropWhile (fun c => c != SEP) with
  | [] => rfl
  | c :: rest =>
    have hc : (c != SEP) = false := dropWhile_head_false (fun c => c != SEP) p.reverse rest c hdw
    rw [List.takeWhile_cons]
    simp [hc]

theorem dirPart_dirPart (p : Path) : dirPart (dirPart p) = dirPart p := by
  unfold dirPart
  rw [List.reverse_reverse, dropWhile_idem]

/-! ### The classifier (C1) -/

theorem lookupCategory_eq_find (table : List (Path × List Path)) (e : Path) :
    lookupCategory table e =
      match table.find? (fun entry => decide (e ∈ entry.2)) with
      | some entry => entry.1
      | none => str "Others" := by
  induction table with
  | nil => rfl
  | cons hd rest ih =>
    match hd with
    | (cat, exts) =>
      simp only [lookupCategory, List.find?]
      by_cases h : e ∈ exts
      · simp [h]
      · simp [h, ih]

/-- C1: `get_category` lowercases its input and returns the category of the
first entry of the extension table, in the table's fixed enumeration order,
whose extension list contains the lowercased input, falling back to
`"Others"` (this is exactly the spec-modelled `category_of_spec`); moreover
any input whose lowercase form is `".pdf"` is classified `"PDF"` — the first
matching entry — and not `"Ebook"`. -/
theorem get_category_first_match :
    (∀ e : Path, get_category e = category_of_spec e) ∧
    (∀ e : Path, lowerStr e = str ".pdf" → get_category e = str "PDF") := by
  constructor
  · intro e
    unfold get_category category_of_spec
    exact lookupCategory_eq_find EXTENSION_MAPPINGS (lowerStr e)
  · intro e h
    unfold get_category
    rw [h]
    decide

/-- Witness for C1 at the concrete input `".PDF"`. -/
theorem get_category_first_match_witness :
    lowerStr (str ".PDF") = str ".pdf" ∧ get_category (str ".PDF") = str "PDF" :=
  ⟨by decide, get_category_first_match.2 (str ".PDF") (by decide)⟩

/-! ### The directory provisioner (C3, C7) -/

theorem ensure_exists_noop (fs : FS) (d : Path) (h : os_path_exists fs d = true) :
    ensure_directory_exists fs d = .ok fs := by
  unfold ensure_directory_exists
  rw [h]
  simp

theorem ensure_ok_characterization (fs : FS) (d : Path) (fs2 : FS)
    (h : ensure_directory_exists fs d = .ok fs2) :
    os_path_exists fs2 d = true ∧
    fs2.files = fs.files ∧
    (∀ p, os_path_exists fs p = true → os_path_exists fs2 p = true) ∧
    fs2.mkdirDenied = fs.mkdirDenied ∧ fs2.moveDenied = fs.moveDenied ∧
    fs2.chmodDenied = fs.chmodDenied ∧
    (fs2.dirs = fs.dirs ∨ (fs2.dirs = d :: fs.dirs ∧ os_path_exists fs d = false)) := by
  unfold ensure_directory_exists at h
  by_cases hex : os_path_exists fs d = false
  · rw [hex] at h
    simp only [if_true] at h
    unfold os_makedirs at h
    by_cases hden : d ∈ fs.mkdirDenied
    · simp [hden] at h
    · simp only [hden, if_neg, if_false] at h
      unfold os_chmod at h
      by_cases hcden : d ∈ ({ fs with dirs := d :: fs.dirs } : FS).chmodDenied
      · simp [hcden] at h
      · simp only [hcden, if_neg, if_false] at h
        have hex1 : os_path_exists { fs with dirs := d :: fs.dirs } d = true := by
          unfold os_path_exists
          simp
        rw [hex1] at h
        simp at h
        subst h
        refine ⟨?_, rfl, ?_, rfl, rfl, rfl, Or.inr ⟨rfl, hex⟩⟩
        · unfold os_path_exists
          simp
        · intro p hp
          unfold os_path_exists at hp ⊢
          simp at hp ⊢
          tauto
  · have hex2 : os_path_exists fs d = true := by
      rcases Bool.eq_false_or_eq_true (os_path_exists fs d) with h1 | h1
      · exact h1
      · exact absurd h1 hex
    simp [hex2] at h
    subst h
    exact ⟨hex2, rfl, fun p hp => hp, rfl, rfl, rfl, Or.inl rfl⟩

/-- C7: the directory provisioner is idempotent — when something already
exists at the path the call returns success with the state literally
unchanged (contents and permissions untouched), and a second call on the
state produced by any successful call again returns success without
modification. -/
theorem ensure_directory_exists_idempotent (fs : FS) (d : Path) :
    (os_path_exists fs d = true → ensure_directory_exists fs d = .ok fs) ∧
    (∀ fs2, ensure_directory_exists fs d = .ok fs2 →
      ensure_directory_exists fs2 d = .ok fs2) := by
  refine ⟨ensure_exists_noop fs d, ?_⟩
  intro fs2 h
  have hchar := ensure_ok_characterization fs d fs2 h
  exact ensure_exists_noop fs2 d hchar.1

/-- Witness for C7: a directory that already exists, and a double call after
a fresh creation. -/
theorem ensure_directory_exists_idempotent_witness :
    ensure_directory_exists fsCollide (str "/watch/PDF") = .ok fsCollide ∧
    ensure_directory_exists
      { fsEmpty with dirs := [str "/watch/PDF"],
                     modes := [(str "/watch/PDF", 0o755)] } (str "/watch/PDF") =
      .ok { fsEmpty with dirs := [str "/watch/PDF"],
                         modes := [(str "/watch/PDF", 0o755)] } :=
  ⟨(ensure_directory_exists_idempotent fsCollide (str "/watch/PDF")).1 (by decide),
   (ensure_directory_exists_idempotent fsEmpty (str "/watch/PDF")).2
     { fsEmpty with dirs := [str "/watch/PDF"],
                    modes := [(str "/watch/PDF", 0o755)] } rfl⟩

/-- C3 counterexample: a regular file occupies `/watch/PDF`; creation at that
path cannot succeed (a non-directory entry occupies it), yet
`ensure_directory_exists` returns success instead of propagating an error,
because line 63 tests `os.path.exists`, which is true for files too. -/
theorem ensure_nonDirectory_silent_success :
    (str "/watch/PDF") ∈ fsFileAtPDF.files ∧
    (str "/watch/PDF") ∉ fsFileAtPDF.dirs ∧
    ensure_directory_exists fsFileAtPDF (str "/watch/PDF") = .ok fsFileAtPDF := by
  refine ⟨by decide, by decide, ?_⟩
  exact ensure_exists_noop fsFileAtPDF (str "/watch/PDF") (by decide)

/-- C3 (amended): when *no* entry exists at the path and creation (or the
subsequent chmod) is denied, the error propagates to the caller; but when
any entry — directory or non-directory alike — already occupies the path,
the call returns success without attempting creation. -/
theorem ensure_directory_exists_error_propagation (fs : FS) (d : Path) :
    (os_path_exists fs d = false → d ∈ fs.mkdirDenied →
      ensure_directory_exists fs d = .error (.permissionDenied d)) ∧
    (os_path_exists fs d = false → d ∉ fs.mkdirDenied → d ∈ fs.chmodDenied →
      ensure_directory_exists fs d = .error (.permissionDenied d)) ∧
    (os_path_exists fs d = true → ensure_directory_exists fs d = .ok fs) := by
  refine ⟨?_, ?_, ensure_exists_noop fs d⟩
  · intro hex hden
    unfold ensure_directory_exists os_makedirs
    rw [hex]
    simp [hden]
  · intro hex hden hcden
    unfold ensure_directory_exists os_makedirs os_chmod
    rw [hex]
    simp [hden, hcden]

/-- Witness for C3's amended statement: denied creation propagates; an
existing entry (even a file) yields success. -/
theorem ensure_directory_exists_error_propagation_witness :
    ensure_directory_exists fsDeniedPDF (str "/watch/PDF") =
      .error (.permissionDenied (str "/watch/PDF")) ∧
    ensure_directory_exists fsFileAtPDF (str "/watch/PDF") = .ok fsFileAtPDF :=
  ⟨(ensure_directory_exists_error_propagation fsDeniedPDF (str "/watch/PDF")).1
      (by decide) (by decide),
   (ensure_directory_exists_error_propagation fsFileAtPDF (str "/watch/PDF")).2.2
      (by decide)⟩

/-! ### Bootstrap (C8) -/

theorem bootstrapLoop_error (root : Path) (cs : List Path) :
    ∀ fs e, bootstrapLoop root fs cs = .error e → e.1 = 1 := by
  induction cs with
  | nil => intro fs e h; simp [bootstrapLoop] at h
  | cons c rest ih =>
    intro fs e h
    unfold bootstrapLoop at h
    cases hens : ensure_directory_exists fs (joinPath root c) with
    | ok fs1 =>
      rw [hens] at h
      exact ih fs1 e h
    | error e2 =>
      rw [hens] at h
      simp at h
      rw [← h]

theorem bootstrapLoop_ok (root : Path) (cs : List Path) :
    ∀ fs fs2, bootstrapLoop root fs cs = .ok fs2 →
      (∀ p, os_path_exists fs p = true → os_path_exists fs2 p = true) ∧
      (∀ c ∈ cs, os_path_exists fs2 (joinPath root c) = true) := by
  induction cs with
  | nil =>
    intro fs fs2 h
    simp [bootstrapLoop] at h
    subst h
    exact ⟨fun p hp => hp, by simp⟩
  | cons c rest ih =>
    intro fs fs2 h
    unfold bootstrapLoop at h
    cases hens : ensure_directory_exists fs (joinPath root c) with
    | error e =>
      rw [hens] at h
      simp at h
    | ok fs1 =>
      rw [hens] at h
      have hchar := ensure_ok_characterization fs (joinPath root c) fs1 hens
      obtain ⟨hmono, hall⟩ := ih fs1 fs2 h
      refine ⟨fun p hp => hmono p (hchar.2.2.1 p hp), ?_⟩
      intro c2 hc2
      rcases List.mem_cons.mp hc2 with heq | hc2
      · subst heq
        exact hmono _ hchar.1
      · exact hall c2 hc2

/-- C8: bootstrap runs the directory provisioner on `{root}/{C}` for every
category `C` of the table plus `"Others"` before the watch subscription
starts — on success every one of those paths exists — and any provisioning
failure makes the process exit with the non-zero code 1. -/
theorem bootstrap_provisions_all_or_exit_nonzero (root : Path) (fs : FS) :
    (∀ e, bootstrap root fs = .error e → e.1 = 1) ∧
    (∀ fs2 c, bootstrap root fs = .ok fs2 → c ∈ categories →
      os_path_exists fs2 (joinPath root c) = true) := by
  constructor
  · intro e h
    exact bootstrapLoop_error root categories fs e h
  · intro fs2 c h hc
    exact (bootstrapLoop_ok root categories fs fs2 h).2 c hc

/-- Witness for C8: a denied creation exits with code 1; a successful
bootstrap on an empty filesystem leaves the `"Others"` category directory
existing. -/
theorem bootstrap_provisions_all_or_exit_nonzero_witness :
    bootstrap rootW fsDeniedPDF = .error (1, fsDeniedPDF) ∧
    ((1 : Nat), fsDeniedPDF).1 = 1 ∧
    bootstrap rootW fsEmpty = .ok fsBoot ∧
    os_path_exists fsBoot (joinPath rootW (str "Others")) = true :=
  ⟨rfl,
   (bootstrap_provisions_all_or_exit_nonzero rootW fsDeniedPDF).1 (1, fsDeniedPDF) rfl,
   rfl,
   (bootstrap_provisions_all_or_exit_nonzero rootW fsEmpty).2 fsBoot (str "Others") rfl
     (by decide)⟩

/-! ### Structure of `splitextName` and `splitext` -/

theorem bool_eq_false {b : Bool} (h : ¬ b = true) : b = false := by
  simpa using h

theorem splitextName_eq_cases (name : Path) :
    splitextName name = (name, []) ∨
    ∃ s r, splitextName name = (s, EXTSEP :: r) ∧ EXTSEP ∉ r ∧
      name = s ++ EXTSEP :: r := by
  have hsplit : name.reverse.takeWhile (fun c => c != EXTSEP) ++
      name.reverse.dropWhile (fun c => c != EXTSEP) = name.reverse :=
    List.takeWhile_append_dropWhile _ _
  have htwmem : ∀ c ∈ name.reverse.takeWhile (fun c => c != EXTSEP),
      (c != EXTSEP) = true :=
    fun c hc => mem_takeWhile_pred (fun x => x != EXTSEP) name.reverse hc
  unfold splitextName
  generalize htw : name.reverse.takeWhile (fun c => c != EXTSEP) = tw at hsplit htwmem ⊢
  generalize hdwe : name.reverse.dropWhile (fun c => c != EXTSEP) = dw at hsplit ⊢
  cases dw with
  | nil => left; rfl
  | cons c rstem =>
    have hc : c = EXTSEP := by
      have := dropWhile_head_false (fun x => x != EXTSEP) name.reverse rstem c hdwe
      simpa using this
    have hname : name = rstem.reverse ++ EXTSEP :: tw.reverse := by
      have h2 := congrArg List.reverse hsplit
      rw [List.reverse_reverse, List.reverse_append, List.reverse_cons] at h2
      rw [← h2, hc]
      simp [List.append_assoc]
    by_cases hany : rstem.reverse.any (fun c => c != EXTSEP) = true
    · right
      refine ⟨rstem.reverse, tw.reverse, ?_, ?_, hname⟩
      · show (if rstem.reverse.any (fun c => c != EXTSEP) then
            ((rstem.reverse, EXTSEP :: tw.reverse) : Path × Path)
          else (name, [])) = (rstem.reverse, EXTSEP :: tw.reverse)
        rw [if_pos hany]
      · intro hmem
        rw [List.mem_reverse] at hmem
        have := htwmem EXTSEP hmem
        simp at this
    · left
      show (if rstem.reverse.any (fun c => c != EXTSEP) then
            ((rstem.reverse, EXTSEP :: tw.reverse) : Path × Path)
          else (name, [])) = (name, [])
      rw [if_neg hany]

theorem splitextName_append_eq (name : Path) :
    (splitextName name).1 ++ (splitextName name).2 = name := by
  rcases splitextName_eq_cases name with h | ⟨s, r, h, _, hname⟩
  · rw [h]
    simp
  · rw [h]
    exact hname.symm

theorem splitext_append_eq (p : Path) :
    (splitext p).1 ++ (splitext p).2 = p := by
  show (dirPart p ++ (splitextName (basename p)).1) ++ (splitextName (basename p)).2 = p
  rw [List.append_assoc, splitextName_append_eq, dirPart_append_basename]

theorem splitextName_of_ext (s m r : Path) (hm1 : EXTSEP ∉ m) (hm2 : m ≠ [])
    (hr : EXTSEP ∉ r) :
    splitextName (s ++ m ++ EXTSEP :: r) = (s ++ m, EXTSEP :: r) := by
  have hallr : ∀ c ∈ r.reverse, (c != EXTSEP) = true := by
    intro c hc
    rw [List.mem_reverse] at hc
    simp
    intro heq
    exact hr (heq ▸ hc)
  have hrev : (s ++ m ++ EXTSEP :: r).reverse =
      r.reverse ++ EXTSEP :: (m.reverse ++ s.reverse) := by
    simp [List.reverse_append, List.append_assoc]
  have htw : (s ++ m ++ EXTSEP :: r).reverse.takeWhile (fun c => c != EXTSEP) =
      r.reverse := by
    rw [hrev, takeWhile_append_all _ hallr, List.takeWhile_cons]
    simp
  have hdw : (s ++ m ++ EXTSEP :: r).reverse.dropWhile (fun c => c != EXTSEP) =
      EXTSEP :: (m.reverse ++ s.reverse) := by
    rw [hrev, dropWhile_append_all _ hallr, List.dropWhile_cons]
    simp
  have hany : (m.reverse ++ s.reverse).reverse.any (fun c => c != EXTSEP) = true := by
    match m, hm2 with
    | c0 :: mrest, _ =>
      rw [List.any_eq_true]
      refine ⟨c0, ?_, ?_⟩
      · rw [List.reverse_append, List.reverse_reverse, List.reverse_reverse]
        exact List.mem_append_right _ (List.mem_cons_self c0 mrest)
      · simp
        intro heq
        exact hm1 (heq ▸ List.mem_cons_self c0 mrest)
  unfold splitextName
  rw [hdw]
  show (if (m.reverse ++ s.reverse).reverse.any (fun c => c != EXTSEP) then
        ((m.reverse ++ s.reverse).reverse,
          EXTSEP :: ((s ++ m ++ EXTSEP :: r).reverse.takeWhile (fun c => c != EXTSEP)).reverse)
      else (s ++ m ++ EXTSEP :: r, [])) = (s ++ m, EXTSEP :: r)
  rw [if_pos hany, htw]
  simp [List.reverse_append]

theorem splitextName_of_noext (name m : Path) (hm : EXTSEP ∉ m)
    (hne : (splitextName name).2 = []) :
    (splitextName (name ++ m)).2 = [] := by
  have hallm : ∀ c ∈ m.reverse, (c != EXTSEP) = true := by
    intro c hc
    rw [List.mem_reverse] at hc
    simp
    intro heq
    exact hm (heq ▸ hc)
  have hdw : (name ++ m).reverse.dropWhile (fun c => c != EXTSEP) =
      name.reverse.dropWhile (fun c => c != EXTSEP) := by
    rw [List.reverse_append, dropWhile_append_all _ hallm]
  match hdwn : name.reverse.dropWhile (fun c => c != EXTSEP) with
  | [] =>
    unfold splitextName
    rw [hdw, hdwn]
  | c :: rstem =>
    unfold splitextName at hne
    rw [hdwn] at hne
    have hne2 : (if rstem.reverse.any (fun c => c != EXTSEP) then
          ((rstem.reverse,
            EXTSEP :: (name.reverse.takeWhile (fun c => c != EXTSEP)).reverse) : Path × Path)
        else (name, [])).2 = [] := hne
    by_cases hany : rstem.reverse.any (fun c => c != EXTSEP) = true
    · rw [if_pos hany] at hne2
      simp at hne2
    · unfold splitextName
      rw [hdw, hdwn]
      show (if rstem.reverse.any (fun c => c != EXTSEP) then
            ((rstem.reverse,
              EXTSEP :: ((name ++ m).reverse.takeWhile (fun c => c != EXTSEP)).reverse) : Path × Path)
          else (name ++ m, [])).2 = []
      rw [if_neg hany]

/-! ### The collision-resolution loop (C2, C9) -/

theorem probeName_injective (base ext : Path) (i j : Nat)
    (h : probeName base ext i = probeName base ext j) : i = j := by
  unfold probeName at h
  have h1 := (List.append_left_inj ext).mp h
  have h2 := (List.append_right_inj base).mp h1
  exact natToChars_injective (List.cons.inj h2).2

theorem probeName_length (base ext : Path) (i : Nat) :
    (probeName base ext i).length =
      base.length + 1 + (natToChars i).length + ext.length := by
  unfold probeName
  simp only [List.length_append, List.length_cons]
  omega

theorem probeName_ne_dest (dest : Path) (i : Nat) :
    probeName (splitext dest).1 (splitext dest).2 i ≠ dest := by
  intro h
  have hlen := congrArg List.length h
  rw [probeName_length] at hlen
  have hdest : (splitext dest).1.length + (splitext dest).2.length = dest.length := by
    have := congrArg List.length (splitext_append_eq dest)
    simpa using this
  omega

theorem findCounterLoop_none (fs : FS) (base ext : Path) :
    ∀ fuel k, findCounterLoop fs base ext fuel k = none →
      ∀ i, k ≤ i → i < k + fuel → os_path_exists fs (probeName base ext i) = true := by
  intro fuel
  induction fuel with
  | zero => intro k h i h1 h2; omega
  | succ f ih =>
    intro k h i h1 h2
    unfold findCounterLoop at h
    simp only [] at h
    by_cases hex : os_path_exists fs (probeName base ext k) = true
    · rw [hex] at h
      simp at h
      by_cases hik : i = k
      · rw [hik]; exact hex
      · exact ih (k + 1) h i (by omega) (by omega)
    · simp [hex] at h

theorem os_path_exists_mem (fs : FS) (p : Path) (h : os_path_exists fs p = true) :
    p ∈ fs.files ++ fs.dirs := by
  unfold os_path_exists at h
  rw [Bool.or_eq_true, decide_eq_true_eq, decide_eq_true_eq] at h
  rw [List.mem_append]
  exact h

theorem findCounterLoop_isSome (fs : FS) (base ext : Path) (k : Nat) :
    findCounterLoop fs base ext (entryCount fs + 1) k ≠ none := by
  intro hnone
  have hall := findCounterLoop_none fs base ext (entryCount fs + 1) k hnone
  set L : List Path :=
    (List.range (entryCount fs + 1)).map (fun t => probeName base ext (k + t)) with hL
  have hnodup : L.Nodup := by
    refine List.Nodup.map ?_ (List.nodup_range _)
    intro a b hab
    have := probeName_injective base ext (k + a) (k + b) hab
    omega
  have hsub : L ⊆ fs.files ++ fs.dirs := by
    intro p hp
    rw [hL, List.mem_map] at hp
    obtain ⟨t, ht, hpt⟩ := hp
    rw [List.mem_range] at ht
    have := hall (k + t) (by omega) (by omega)
    rw [hpt] at this
    exact os_path_exists_mem fs p this
  have hlen : L.length ≤ (fs.files ++ fs.dirs).length :=
    (List.subperm_of_subset hnodup hsub).length_le
  rw [hL] at hlen
  simp only [List.length_map, List.length_range, List.length_append] at hlen
  unfold entryCount at hlen
  omega

theorem findCounterLoop_some (fs : FS) (base ext : Path) :
    ∀ fuel k pth, findCounterLoop fs base ext fuel k = some pth →
      ∃ j, k ≤ j ∧ pth = probeName base ext j ∧
        os_path_exists fs (probeName base ext j) = false ∧
        ∀ i, k ≤ i → i < j → os_path_exists fs (probeName base ext i) = true := by
  intro fuel
  induction fuel with
  | zero => intro k pth h; simp [findCounterLoop] at h
  | succ f ih =>
    intro k pth h
    unfold findCounterLoop at h
    simp only [] at h
    by_cases hex : os_path_exists fs (probeName base ext k) = true
    · rw [hex] at h
      simp at h
      obtain ⟨j, hj1, hj2, hj3, hj4⟩ := ih (k + 1) pth h
      refine ⟨j, by omega, hj2, hj3, ?_⟩
      intro i h1 h2
      by_cases hik : i = k
      · rw [hik]; exact hex
      · exact hj4 i (by omega) h2
    · simp [hex] at h
      exact ⟨k, Nat.le_refl k, h.symm, bool_eq_false hex, fun i h1 h2 => by omega⟩

theorem get_unique_filename_unchanged (fs : FS) (dest : Path)
    (hex : os_path_exists fs dest = false) : get_unique_filename fs dest = dest := by
  unfold get_unique_filename
  rw [hex]
  simp

/-- The characterization underlying C2: when the destination is occupied, the
collision loop returns the probe of the smallest free counter, starting
from 1. -/
theorem get_unique_filename_probe (fs : FS) (dest : Path)
    (hex : os_path_exists fs dest = true) :
    ∃ N, 1 ≤ N ∧
      get_unique_filename fs dest = probeName (splitext dest).1 (splitext dest).2 N ∧
      os_path_exists fs (probeName (splitext dest).1 (splitext dest).2 N) = false ∧
      ∀ i, 1 ≤ i → i < N →
        os_path_exists fs (probeName (splitext dest).1 (splitext dest).2 i) = true := by
  have hgu : get_unique_filename fs dest =
      (findCounterLoop fs (splitext dest).1 (splitext dest).2
        (entryCount fs + 1) 1).getD dest := by
    unfold get_unique_filename
    rw [hex]
    simp
  match hloop : findCounterLoop fs (splitext dest).1 (splitext dest).2
      (entryCount fs + 1) 1 with
  | none =>
    exact absurd hloop (findCounterLoop_isSome fs (splitext dest).1 (splitext dest).2 1)
  | some pth =>
    obtain ⟨j, hj1, hj2, hj3, hj4⟩ :=
      findCounterLoop_some fs (splitext dest).1 (splitext dest).2
        (entryCount fs + 1) 1 pth hloop
    refine ⟨j, hj1, ?_, hj3, hj4⟩
    rw [hgu, hloop, Option.getD_some, hj2]

/-- C2: the collision resolution of `get_unique_filename` — an unoccupied
destination is returned unchanged; an occupied destination is split into
stem and extension and the result is the probe `stem_N.ext` for the smallest
N ≥ 1 whose probe does not exist; in particular when the destination and the
probes 1..N all exist and probe N+1 does not, the result is probe N+1. -/
theorem get_unique_filename_spec (fs : FS) (dest : Path) :
    (os_path_exists fs dest = false → get_unique_filename fs dest = dest) ∧
    (os_path_exists fs dest = true →
      ∃ N, 1 ≤ N ∧
        get_unique_filename fs dest = probeName (splitext dest).1 (splitext dest).2 N ∧
        os_path_exists fs (probeName (splitext dest).1 (splitext dest).2 N) = false ∧
        ∀ i, 1 ≤ i → i < N →
          os_path_exists fs (probeName (splitext dest).1 (splitext dest).2 i) = true) ∧
    (∀ N, os_path_exists fs dest = true →
      (∀ i, 1 ≤ i → i ≤ N →
        os_path_exists fs (probeName (splitext dest).1 (splitext dest).2 i) = true) →
      os_path_exists fs (probeName (splitext dest).1 (splitext dest).2 (N + 1)) = false →
      get_unique_filename fs dest =
        probeName (splitext dest).1 (splitext dest).2 (N + 1)) := by
  refine ⟨get_unique_filename_unchanged fs dest, get_unique_filename_probe fs dest, ?_⟩
  intro N hex hbelow hfree
  obtain ⟨M, hM1, hM2, hM3, hM4⟩ := get_unique_filename_probe fs dest hex
  have hMN : M = N + 1 := by
    by_cases hle : M ≤ N
    · have := hbelow M hM1 hle
      rw [this] at hM3
      simp at hM3
    · by_cases hgt : N + 1 < M
      · have := hM4 (N + 1) (by omega) hgt
        rw [this] at hfree
        simp at hfree
      · omega
  rw [hM2, hMN]

/-- Witness for C2: an unoccupied destination is returned unchanged, and a
destination whose probe 1 is also occupied resolves to probe 2. -/
theorem get_unique_filename_spec_witness :
    get_unique_filename fsEmpty (str "/watch/PDF/a.pdf") = str "/watch/PDF/a.pdf" ∧
    get_unique_filename fsCollide (str "/watch/PDF/a.pdf") = str "/watch/PDF/a_2.pdf" :=
  ⟨(get_unique_filename_spec fsEmpty (str "/watch/PDF/a.pdf")).1 (by decide),
   ((get_unique_filename_spec fsCollide (str "/watch/PDF/a.pdf")).2.2 1
      (by decide)
      (by
        intro i h1 h2
        have hi : i = 1 := by omega
        rw [hi]
        decide)
      (by decide)).trans (by decide)⟩

/-- The collision loop never returns an occupied path (used for C5). -/
theorem get_unique_filename_free (fs : FS) (dest : Path) :
    os_path_exists fs (get_unique_filename fs dest) = false := by
  by_cases hex : os_path_exists fs dest = true
  · obtain ⟨N, _, h2, h3, _⟩ := get_unique_filename_probe fs dest hex
    rw [h2]
    exact h3
  · rw [get_unique_filename_unchanged fs dest (bool_eq_false hex)]
    exact bool_eq_false hex

theorem mid_no_SEP (N : Nat) : SEP ∉ '_' :: natToChars N := by
  intro hmem
  rcases List.mem_cons.mp hmem with h | h
  · exact absurd h (by decide)
  · exact natToChars_no_SEP N h

theorem mid_no_EXTSEP (N : Nat) : EXTSEP ∉ '_' :: natToChars N := by
  intro hmem
  rcases List.mem_cons.mp hmem with h | h
  · exact absurd h (by decide)
  · exact natToChars_no_EXTSEP N h

theorem splitextName_no_sep (dest : Path) :
    SEP ∉ (splitextName (basename dest)).1 ∧ SEP ∉ (splitextName (basename dest)).2 := by
  constructor
  · intro h
    exact sep_not_mem_basename dest
      (splitextName_append_eq (basename dest) ▸ List.mem_append_left _ h)
  · intro h
    exact sep_not_mem_basename dest
      (splitextName_append_eq (basename dest) ▸ List.mem_append_right _ h)

theorem probe_decomp (dest : Path) (N : Nat) :
    probeName (splitext dest).1 (splitext dest).2 N =
      dirPart dest ++ ((splitextName (basename dest)).1 ++
        (('_' :: natToChars N) ++ (splitextName (basename dest)).2)) := by
  show ((dirPart dest ++ (splitextName (basename dest)).1) ++ ('_' :: natToChars N)) ++
      (splitextName (basename dest)).2 =
    dirPart dest ++ ((splitextName (basename dest)).1 ++
      (('_' :: natToChars N) ++ (splitextName (basename dest)).2))
  simp [List.append_assoc]

theorem probe_tail_no_sep (dest : Path) (N : Nat) :
    SEP ∉ (splitextName (basename dest)).1 ++
      (('_' :: natToChars N) ++ (splitextName (basename dest)).2) := by
  intro hmem
  rcases List.mem_append.mp hmem with h | h
  · exact (splitextName_no_sep dest).1 h
  · rcases List.mem_append.mp h with h2 | h2
    · exact mid_no_SEP N h2
    · exact (splitextName_no_sep dest).2 h2

theorem dirPart_probe (dest : Path) (N : Nat) :
    dirPart (probeName (splitext dest).1 (splitext dest).2 N) = dirPart dest := by
  rw [probe_decomp, dirPart_append_noSep _ _ (probe_tail_no_sep dest N)]
  exact dirPart_dirPart dest

theorem splitext_probe_ext (dest : Path) (N : Nat) :
    (splitext (probeName (splitext dest).1 (splitext dest).2 N)).2 =
      (splitext dest).2 := by
  have hbn : basename (probeName (splitext dest).1 (splitext dest).2 N) =
      (splitextName (basename dest)).1 ++
        (('_' :: natToChars N) ++ (splitextName (basename dest)).2) := by
    rw [probe_decomp, basename_append_noSep _ _ (probe_tail_no_sep dest N),
      basename_dirPart, List.nil_append]
  show (splitextName (basename (probeName (splitext dest).1 (splitext dest).2 N))).2 =
      (splitextName (basename dest)).2
  rw [hbn]
  rcases splitextName_eq_cases (basename dest) with hcase | ⟨s, r, hcase, hr, hnm⟩
  · have h1 : (splitextName (basename dest)).1 = basename dest := by rw [hcase]
    have h2 : (splitextName (basename dest)).2 = [] := by rw [hcase]
    rw [h1, h2, List.append_nil]
    exact splitextName_of_noext (basename dest) ('_' :: natToChars N)
      (mid_no_EXTSEP N) h2
  · have h1 : (splitextName (basename dest)).1 = s := by rw [hcase]
    have h2 : (splitextName (basename dest)).2 = EXTSEP :: r := by rw [hcase]
    rw [h1, h2, ← List.append_assoc]
    rw [splitextName_of_ext s ('_' :: natToChars N) r (mid_no_EXTSEP N) (by simp) hr]

/-- C9: the renamed path produced by `get_unique_filename` stays in the same
parent directory as its input (identical prefix up to the last separator)
and keeps the same extension under stem/extension splitting — the
collision-renaming scheme never changes the target directory or the
extension. -/
theorem get_unique_filename_preserves_dir_ext (fs : FS) (dest : Path) :
    dirPart (get_unique_filename fs dest) = dirPart dest ∧
    (splitext (get_unique_filename fs dest)).2 = (splitext dest).2 := by
  by_cases hex : os_path_exists fs dest = true
  · obtain ⟨N, _, h2, _, _⟩ := get_unique_filename_probe fs dest hex
    rw [h2]
    exact ⟨dirPart_probe dest N, splitext_probe_ext dest N⟩
  · rw [get_unique_filename_unchanged fs dest (bool_eq_false hex)]
    exact ⟨rfl, rfl⟩

/-! ### The event pipeline (C4, C5, C6, C10) -/

theorem bool_ne_false {b : Bool} (h : ¬ b = false) : b = true := by
  cases b with
  | false => exact absurd rfl h
  | true => rfl

theorem on_created_dir (root : Path) (fs : FS) (ev : Event)
    (hdir : ev.is_directory = true) :
    on_created root fs ev = (.ignoredDirectory, fs) := by
  unfold on_created
  rw [hdir]
  simp

theorem on_created_vanished (root : Path) (fs : FS) (ev : Event)
    (hdir : ev.is_directory = false) (hex : os_path_exists fs ev.src_path = false) :
    on_created root fs ev = (.vanished, fs) := by
  unfold on_created tryProcess
  rw [hdir, hex]
  simp

theorem on_created_hidden (root : Path) (fs : FS) (ev : Event)
    (hdir : ev.is_directory = false) (hex : os_path_exists fs ev.src_path = true)
    (hh : (basename ev.src_path).head? = some EXTSEP) :
    on_created root fs ev = (.skippedHidden, fs) := by
  unfold on_created tryProcess
  rw [hdir, hex]
  simp [hh]

theorem on_created_noext (root : Path) (fs : FS) (ev : Event)
    (hdir : ev.is_directory = false) (hex : os_path_exists fs ev.src_path = true)
    (hh : ¬ (basename ev.src_path).head? = some EXTSEP)
    (hne : (splitext (basename ev.src_path)).2 = []) :
    on_created root fs ev = (.skippedNoExtension, fs) := by
  unfold on_created tryProcess
  rw [hdir, hex]
  simp [hh, hne]

/-- When the handler reports a completed move, the event necessarily passed
every filter, the category directory was provisioned, and the move and the
permission step both succeeded at the collision-free destination. -/
theorem tryProcess_moved (root : Path) (fs : FS) (src : Path) (d : Path) (fs2 : FS)
    (h : tryProcess root fs src = .ok (.moved d, fs2)) :
    os_path_exists fs src = true ∧
    ¬ (basename src).head? = some EXTSEP ∧
    ¬ (splitext (basename src)).2 = [] ∧
    ∃ fs1, ensure_directory_exists fs
        (joinPath root (get_category (splitext (basename src)).2)) = .ok fs1 ∧
      d = get_unique_filename fs1
        (joinPath (joinPath root (get_category (splitext (basename src)).2))
          (basename src)) ∧
      ∃ fsm, shutil_move fs1 src d = .ok fsm ∧ os_chmod fsm d 0o644 = .ok fs2 := by
  unfold tryProcess at h
  simp only [] at h
  split at h
  · simp at h
  · rename_i hvan
    split at h
    · simp at h
    · rename_i hh
      split at h
      · simp at h
      · rename_i hne
        split at h
        · simp at h
        · rename_i fs1 hens
          split at h
          · simp at h
          · rename_i fsm hmove
            split at h
            · simp at h
            · rename_i fsc hchmod
              simp only [Except.ok.injEq, Prod.mk.injEq] at h
              obtain ⟨hd, hfs⟩ := h
              have hd2 : d = get_unique_filename fs1
                  (joinPath (joinPath root (get_category (splitext (basename src)).2))
                    (basename src)) := by
                rw [← (Outcome.moved.injEq _ _).mp hd]
              subst hfs
              refine ⟨bool_ne_false hvan, hh, hne, fs1, hens, hd2, fsm, ?_, ?_⟩
              · rw [hd2]
                exact hmove
              · rw [hd2]
                exact hchmod

/-- C4: the move step is reached only for events that are not directory
events, whose source still exists after the debounce delay, whose basename
is not hidden, and whose basename has a non-empty extension; in each of the
four excluded situations the event terminates benignly — with the dedicated
non-error outcome and the filesystem unchanged, so no move and no error
occurs. -/
theorem on_created_filters (root : Path) (fs : FS) (ev : Event) :
    (ev.is_directory = true → on_created root fs ev = (.ignoredDirectory, fs)) ∧
    (ev.is_directory = false → os_path_exists fs ev.src_path = false →
      on_created root fs ev = (.vanished, fs)) ∧
    (ev.is_directory = false → os_path_exists fs ev.src_path = true →
      (basename ev.src_path).head? = some EXTSEP →
      on_created root fs ev = (.skippedHidden, fs)) ∧
    (ev.is_directory = false → os_path_exists fs ev.src_path = true →
      ¬ (basename ev.src_path).head? = some EXTSEP →
      (splitext (basename ev.src_path)).2 = [] →
      on_created root fs ev = (.skippedNoExtension, fs)) ∧
    (∀ d fs2, on_created root fs ev = (.moved d, fs2) →
      ev.is_directory = false ∧ os_path_exists fs ev.src_path = true ∧
      ¬ (basename ev.src_path).head? = some EXTSEP ∧
      ¬ (splitext (basename ev.src_path)).2 = []) := by
  refine ⟨on_created_dir root fs ev, on_created_vanished root fs ev,
    on_created_hidden root fs ev, on_created_noext root fs ev, ?_⟩
  intro d fs2 h
  unfold on_created at h
  split at h
  · simp at h
  · rename_i hdir
    split at h
    · rename_i r htp
      subst h
      have := tryProcess_moved root fs ev.src_path d fs2 htp
      exact ⟨bool_eq_false hdir, this.1, this.2.1, this.2.2.1⟩
    · rename_i e fs1 htp
      simp at h

/-- Witness for C4: a directory event, a vanished source, a hidden file and
an extensionless file each terminate with their benign outcome and an
unchanged filesystem. -/
theorem on_created_filters_witness :
    on_created rootW fsSkips evDir = (.ignoredDirectory, fsSkips) ∧
    on_created rootW fsSkips evGone = (.vanished, fsSkips) ∧
    on_created rootW fsSkips evHidden = (.skippedHidden, fsSkips) ∧
    on_created rootW fsSkips evNoExt = (.skippedNoExtension, fsSkips) :=
  ⟨(on_created_filters rootW fsSkips evDir).1 (by decide),
   (on_created_filters rootW fsSkips evGone).2.1 (by decide) (by decide),
   (on_created_filters rootW fsSkips evHidden).2.2.1 (by decide) (by decide) (by decide),
   (on_created_filters rootW fsSkips evNoExt).2.2.2.1 (by decide) (by decide)
     (by decide) (by decide)⟩

theorem shutil_move_ok (fs : FS) (src dst : Path) (fs2 : FS)
    (h : shutil_move fs src dst = .ok fs2) :
    src ∈ fs.files ∧
    fs2.files = dst :: fs.files.filter (fun q => !(decide (q = src))) ∧
    fs2.dirs = fs.dirs := by
  unfold shutil_move at h
  split at h
  · simp at h
  · rename_i hsrc
    split at h
    · simp at h
    · simp only [Except.ok.injEq] at h
      subst h
      refine ⟨?_, rfl, rfl⟩
      have := bool_ne_false hsrc
      rw [decide_eq_true_eq] at this
      exact this

theorem os_chmod_ok (fs : FS) (p : Path) (m : Nat) (fs2 : FS)
    (h : os_chmod fs p m = .ok fs2) :
    fs2.files = fs.files ∧ fs2.dirs = fs.dirs ∧ fs2.modes = setMode fs.modes p m := by
  unfold os_chmod at h
  split at h
  · simp at h
  · split at h
    · simp at h
    · simp only [Except.ok.injEq] at h
      subst h
      exact ⟨rfl, rfl, rfl⟩

theorem getMode_setMode (modes : List (Path × Nat)) (p : Path) (m : Nat) :
    getMode (setMode modes p m) p = some m := by
  unfold getMode setMode
  simp

/-- C5: for every event the handler reports as moved, the file is gone from
its original location, present at the resolved destination, and its
permission mode is 0o644. -/
theorem on_created_move_effects (root : Path) (fs : FS) (ev : Event) (d : Path)
    (fs2 : FS) (hdisj : FSDisjoint fs)
    (h : on_created root fs ev = (.moved d, fs2)) :
    os_path_exists fs2 ev.src_path = false ∧
    os_path_exists fs2 d = true ∧
    d ∈ fs2.files ∧
    getMode fs2.modes d = some 0o644 := by
  unfold on_created at h
  split at h
  · simp at h
  · split at h
    · rename_i r htp
      subst h
      obtain ⟨hex, hh, hne, fs1, hens, hd, fsm, hmove, hchmod⟩ :=
        tryProcess_moved root fs ev.src_path d fs2 htp
      have hens_char := ensure_ok_characterization fs _ fs1 hens
      have hmove_char := shutil_move_ok fs1 ev.src_path d fsm hmove
      have hchmod_char := os_chmod_ok fsm d 0o644 fs2 hchmod
      have hfree : os_path_exists fs1 d = false := by
        rw [hd]
        exact get_unique_filename_free fs1 _
      have hex1 : os_path_exists fs1 ev.src_path = true := hens_char.2.2.1 _ hex
      have hnedst : ev.src_path ≠ d := by
        intro heq
        rw [heq, hfree] at hex1
        exact Bool.false_ne_true hex1
      have hsrc_files : ev.src_path ∈ fs.files := by
        have := hmove_char.1
        rw [hens_char.2.1] at this
        exact this
      have hsrc_not_files2 : ev.src_path ∉ fs2.files := by
        rw [hchmod_char.1, hmove_char.2.1]
        intro hmem
        rcases List.mem_cons.mp hmem with heq | hmem2
        · exact hnedst heq
        · have := (List.mem_filter.mp hmem2).2
          simp at this
      have hsrc_not_dirs2 : ev.src_path ∉ fs2.dirs := by
        rw [hchmod_char.2.1, hmove_char.2.2]
        rcases hens_char.2.2.2.2.2.2 with hdirs | ⟨hdirs, hnex⟩
        · rw [hdirs]
          exact hdisj ev.src_path hsrc_files
        · rw [hdirs]
          intro hmem
          rcases List.mem_cons.mp hmem with heq | hmem2
          · have hcontra : os_path_exists fs ev.src_path = false := by
              rw [heq]
              exact hnex
            rw [hex] at hcontra
            exact absurd hcontra (by decide)
          · exact hdisj ev.src_path hsrc_files hmem2
      have hdst_files : d ∈ fs2.files := by
        rw [hchmod_char.1, hmove_char.2.1]
        exact List.mem_cons_self d _
      refine ⟨?_, ?_, hdst_files, ?_⟩
      · unfold os_path_exists
        simp [hsrc_not_files2, hsrc_not_dirs2]
      · unfold os_path_exists
        simp [hdst_files]
      · rw [hchmod_char.2.2]
        exact getMode_setMode fsm.modes d 0o644
    · rename_i e fs1 htp
      simp at h

/-- Witness for C5: a fresh `report.pdf` in the watch root is moved to
`/watch/PDF/report.pdf` with mode 0o644 and removed from the root. -/
theorem on_created_move_effects_witness :
    on_created rootW fsMove evMove = (.moved (str "/watch/PDF/report.pdf"), fsMoved) ∧
    os_path_exists fsMoved (joinPath rootW (str "report.pdf")) = false ∧
    os_path_exists fsMoved (str "/watch/PDF/report.pdf") = true ∧
    (str "/watch/PDF/report.pdf") ∈ fsMoved.files ∧
    getMode fsMoved.modes (str "/watch/PDF/report.pdf") = some 0o644 := by
  have h := on_created_move_effects rootW fsMove evMove
    (str "/watch/PDF/report.pdf") fsMoved (by decide) rfl
  exact ⟨rfl, h.1, h.2.1, h.2.2.1, h.2.2.2⟩

theorem runEvents_length (root : Path) :
    ∀ evs : List Event, ∀ fs : FS, (runEvents root fs evs).1.length = evs.length := by
  intro evs
  induction evs with
  | nil => intro fs; rfl
  | cons ev rest ih =>
    intro fs
    show ((on_created root fs ev).1 ::
      (runEvents root (on_created root fs ev).2 rest).1).length = rest.length + 1
    rw [List.length_cons, ih _]

/-- C6: every exception raised inside the per-event `try` block is caught by
the handler, which terminates the event with an error outcome carrying the
diagnostic instead of propagating (the handler is a total function), and a
whole stream of events always yields one outcome per event — no per-event
failure terminates processing or swallows subsequent events. -/
theorem on_created_contains_errors (root : Path) (fs : FS) (ev : Event) :
    (ev.is_directory = false → ∀ e fs1,
      tryProcess root fs ev.src_path = .error (e, fs1) →
      on_created root fs ev = (.errorCaught e, fs1)) ∧
    (∀ evs : List Event, (runEvents root fs evs).1.length = evs.length) := by
  constructor
  · intro hdir e fs1 htp
    unfold on_created
    rw [hdir, htp]
    simp
  · intro evs
    exact runEvents_length root evs fs

/-- Witness for C6: a denied category-directory creation raises inside the
`try` block; the handler catches it and the stream of two such events still
yields two outcomes. -/
theorem on_created_contains_errors_witness :
    tryProcess rootW fsErr (joinPath rootW (str "doc.pdf")) =
      .error (.permissionDenied (joinPath rootW (str "PDF")), fsErr) ∧
    on_created rootW fsErr evErr =
      (.errorCaught (.permissionDenied (joinPath rootW (str "PDF"))), fsErr) ∧
    (runEvents rootW fsErr [evErr, evErr]).1.length = 2 :=
  ⟨rfl,
   (on_created_contains_errors rootW fsErr evErr).1 (by decide)
     (.permissionDenied (joinPath rootW (str "PDF"))) fsErr rfl,
   (on_created_contains_errors rootW fsErr evErr).2 [evErr, evErr]⟩

theorem splitextName_last_dot (mid : Path)
    (hany : mid.any (fun c => c != EXTSEP) = true) :
    splitextName (mid ++ [EXTSEP]) = (mid, [EXTSEP]) := by
  have hdw : (mid ++ [EXTSEP]).reverse.dropWhile (fun c => c != EXTSEP) =
      EXTSEP :: mid.reverse := by
    simp
  have htw : (mid ++ [EXTSEP]).reverse.takeWhile (fun c => c != EXTSEP) = [] := by
    simp
  unfold splitextName
  rw [hdw]
  show (if mid.reverse.reverse.any (fun c => c != EXTSEP) then
        ((mid.reverse.reverse,
          EXTSEP :: ((mid ++ [EXTSEP]).reverse.takeWhile (fun c => c != EXTSEP)).reverse)
          : Path × Path)
      else (mid ++ [EXTSEP], [])) = (mid, [EXTSEP])
  rw [htw, List.reverse_reverse, if_pos hany]
  rfl

/-- C10: a non-hidden, separator-free filename ending in a bare dot has the
non-empty extension `"."`, so it is not skipped as extensionless; `"."`
matches no table entry, so such a file is classified `"Others"`; concretely
the file `notes.` is moved into the `Others` directory. -/
theorem bare_dot_goes_to_others (name : Path) (c : Char) (hnosep : SEP ∉ name)
    (hhead : name.head? = some c) (hc : c ≠ EXTSEP)
    (hlast : name.getLast? = some EXTSEP) :
    (splitext name).2 = [EXTSEP] ∧
    get_category [EXTSEP] = str "Others" ∧
    (on_created rootW fsNotes evNotes).1 =
      .moved (joinPath (joinPath rootW (str "Others")) (str "notes.")) := by
  refine ⟨?_, by decide, by decide⟩
  have hne : name ≠ [] := by
    intro hnil
    rw [hnil] at hlast
    simp at hlast
  have hdecomp : name.dropLast ++ [EXTSEP] = name :=
    List.dropLast_append_getLast? EXTSEP (Option.mem_def.mpr hlast)
  have hany : name.dropLast.any (fun x => x != EXTSEP) = true := by
    obtain ⟨a, rest, hn⟩ : ∃ a rest, name = a :: rest := by
      match name, hne with
      | a :: rest, _ => exact ⟨a, rest, rfl⟩
    have hac : a = c := by
      rw [hn] at hhead
      simp at hhead
      exact hhead
    match rest, hn with
    | [], hn =>
      rw [hn] at hlast
      simp at hlast
      rw [hac] at hlast
      exact absurd hlast hc
    | b :: rest2, hn =>
      rw [hn, List.dropLast_cons₂]
      simp [hac, hc]
  show (splitextName (basename name)).2 = [EXTSEP]
  rw [basename_of_no_sep hnosep, ← hdecomp, splitextName_last_dot name.dropLast hany]

/-- Witness for C10 at the concrete filename `notes.`. -/
theorem bare_dot_goes_to_others_witness :
    (splitext (str "notes.")).2 = [EXTSEP] ∧
    get_category [EXTSEP] = str "Others" ∧
    (on_created rootW fsNotes evNotes).1 =
      .moved (joinPath (joinPath rootW (str "Others")) (str "notes.")) :=
  bare_dot_goes_to_others (str "notes.") 'n' (by decide) (by decide) (by decide)
    (by decide)

end FileManager
